import Mathlib

/-!
# Verification of the PubCheck large-document review pipeline

Shallow embedding of the chunked AI document-review pipeline of the
PubCheck repository (`backend/app/ai/chunker.py`, `backend/app/ai/reviewer.py`,
`backend/app/models/extraction.py`) together with proofs of the spec claims.

Python integers are modelled as `Int`; Python lists as `List`; functions that
can raise an exception are modelled as `Option`-valued (with `none` standing
for an uncaught exception); JSON values are modelled by an inductive `Json`
type with integer numbers (floating-point JSON numbers do not occur in any of
the data the claims are about and are treated as unparseable).
-/

namespace PubCheck

/-! ## DocumentChunker (backend/app/ai/chunker.py) -/

/-- `DocumentChunker.PAGES_PER_CHUNK` -/
def PAGES_PER_CHUNK : Int := 35

/-- `DocumentChunker.OVERLAP_PAGES` -/
def OVERLAP_PAGES : Int := 2

/-- `DocumentChunker.PAGE_THRESHOLD` -/
def PAGE_THRESHOLD : Int := 40

/-- `DocumentChunker.needs_chunking` -/
def needs_chunking (page_count : Int) : Bool :=
  page_count > PAGE_THRESHOLD

/-- The `while start < page_count` loop of `DocumentChunker.calculate_chunks`.
Mirrors: `end = min(start + PAGES_PER_CHUNK, page_count)`; emit `(start, end)`;
stop when `end >= page_count`; `next_start = end - OVERLAP_PAGES`; stop when
`next_start <= start` (progress guard); otherwise continue from `next_start`. -/
def chunksLoop (page_count : Int) (start : Int) : List (Int × Int) :=
  if _h1 : start < page_count then
    if _h2 : min (start + PAGES_PER_CHUNK) page_count ≥ page_count then
      [(start, min (start + PAGES_PER_CHUNK) page_count)]
    else
      if _h3 : min (start + PAGES_PER_CHUNK) page_count - OVERLAP_PAGES ≤ start then
        [(start, min (start + PAGES_PER_CHUNK) page_count)]
      else
        (start, min (start + PAGES_PER_CHUNK) page_count) ::
          chunksLoop page_count (min (start + PAGES_PER_CHUNK) page_count - OVERLAP_PAGES)
  else
    []
termination_by (page_count - start).toNat
decreasing_by
  have hP : PAGES_PER_CHUNK = 35 := rfl
  have hO : OVERLAP_PAGES = 2 := rfl
  simp only [hP, hO] at *
  rcases le_total (start + 35) page_count with hm | hm
  · simp only [min_eq_left hm] at *
    omega
  · simp only [min_eq_right hm] at *
    omega

/-- `DocumentChunker.calculate_chunks` -/
def calculate_chunks (page_count : Int) : List (Int × Int) :=
  if page_count ≤ 0 then [] else chunksLoop page_count 0

/-! ## Extraction data model (backend/app/models/extraction.py)

Float-valued fields (sizes, bounding boxes, DPI) are modelled as rationals;
`filter_extraction_for_chunk` never computes with them, it only copies them. -/

/-- `TextBlock` -/
structure TextBlock where
  text : String
  font : String
  size : ℚ
  bold : Bool
  italic : Bool
  color : Int
  bbox : ℚ × ℚ × ℚ × ℚ
  page : Int
deriving DecidableEq

/-- `ImageInfo` -/
structure ImageInfo where
  xref : Int
  width : Int
  height : Int
  colorspace : String
  dpi_x : ℚ
  dpi_y : ℚ
  bbox : ℚ × ℚ × ℚ × ℚ
  page : Int
  has_mask : Bool
  width_mm : Option ℚ
  height_mm : Option ℚ
deriving DecidableEq

/-- `PageMargins` -/
structure PageMargins where
  page : Int
  top : ℚ
  bottom : ℚ
  left : ℚ
  right : ℚ
  inside : ℚ
  outside : ℚ
deriving DecidableEq

/-- `DocumentMetadata` -/
structure DocumentMetadata where
  filename : String
  page_count : Int
  title : Option String
  author : Option String
  creation_date : Option String
  producer : Option String
  isbn : Option String
  doi : Option String
  job_number : Option String
deriving DecidableEq

/-- `FontSummary` -/
structure FontSummary where
  name : String
  count : Int
  pages : List Int
deriving DecidableEq

/-- `ExtractionResult` -/
structure ExtractionResult where
  metadata : DocumentMetadata
  text_blocks : List TextBlock
  images : List ImageInfo
  margins : List PageMargins
  fonts : List FontSummary
deriving DecidableEq

/-! ## filter_extraction_for_chunk (backend/app/ai/chunker.py) -/

/-- The inner helper `is_page_in_range` of `filter_extraction_for_chunk`. -/
def is_page_in_range (page_min page_max page : Int) : Bool :=
  decide (page_min ≤ page) && decide (page ≤ page_max)

/-- `filter_extraction_for_chunk`: keeps only per-page items whose 1-indexed
page lies in `[start_page+1, end_page]`, passes the font summary through
unchanged and rewrites the metadata page count to the chunk span. -/
def filter_extraction_for_chunk (extraction : ExtractionResult)
    (start_page end_page : Int) : ExtractionResult :=
  let page_min := start_page + 1
  let page_max := end_page
  { metadata :=
      { filename := extraction.metadata.filename
        page_count := end_page - start_page
        title := extraction.metadata.title
        author := extraction.metadata.author
        creation_date := extraction.metadata.creation_date
        producer := extraction.metadata.producer
        isbn := extraction.metadata.isbn
        doi := extraction.metadata.doi
        job_number := extraction.metadata.job_number }
    text_blocks := extraction.text_blocks.filter fun tb => is_page_in_range page_min page_max tb.page
    images := extraction.images.filter fun img => is_page_in_range page_min page_max img.page
    margins := extraction.margins.filter fun m => is_page_in_range page_min page_max m.page
    fonts := extraction.fonts }

/-! ### Claim C7 -/

/-! ## JSON values (model of Python dict/list/str/int values from `json.loads`)

Objects are association lists with the key-update semantics of Python dicts
(assigning an existing key replaces its value in place, a new key is appended),
which is exactly how `json.loads` resolves duplicate keys (last value wins,
first position kept). Numbers are integers: no value any claim touches holds a
float, and the model parser treats a float literal as unparseable. -/

inductive Json where
  | null : Json
  | bool : Bool → Json
  | num : Int → Json
  | str : String → Json
  | arr : List Json → Json
  | obj : List (String × Json) → Json

/-- Python dict assignment `d[k] = v` on an association list: replace the
first occurrence of the key in place, append when absent. -/
def setKeyFirst : List (String × Json) → String → Json → List (String × Json)
  | [], k, v => [(k, v)]
  | (k0, v0) :: rest, k, v =>
    if k0 == k then (k0, v) :: rest else (k0, v0) :: setKeyFirst rest k v

/-- Python dict lookup (keys are unique after `setKeyFirst`-style building). -/
def lookupKey : List (String × Json) → String → Option Json
  | [], _ => none
  | (k0, v0) :: rest, k => if k0 == k then some v0 else lookupKey rest k

def Json.isObj : Json → Bool
  | .obj _ => true
  | _ => false

/-! ## A model of `json.loads` (strict JSON, integer numbers) -/

/-- JSON insignificant whitespace. -/
def jsonWs (c : Char) : Bool :=
  c == ' ' || c == '\t' || c == '\n' || c == '\r'

def skipWsL : List Char → List Char
  | [] => []
  | c :: rest => if jsonWs c then skipWsL rest else c :: rest

/-- JSON string literal body after the opening quote, with the common
escapes (`\uXXXX` is not modelled; no claim exercises it). -/
def strLitAux : List Char → List Char → Option (String × List Char)
  | acc, '"' :: rest => some (String.mk acc.reverse, rest)
  | acc, '\\' :: e :: rest =>
    if e == '"' then strLitAux ('"' :: acc) rest
    else if e == '\\' then strLitAux ('\\' :: acc) rest
    else if e == '/' then strLitAux ('/' :: acc) rest
    else if e == 'b' then strLitAux ('\x08' :: acc) rest
    else if e == 'f' then strLitAux ('\x0c' :: acc) rest
    else if e == 'n' then strLitAux ('\n' :: acc) rest
    else if e == 'r' then strLitAux ('\r' :: acc) rest
    else if e == 't' then strLitAux ('\t' :: acc) rest
    else none
  | acc, c :: rest => if c.toNat < 32 then none else strLitAux (c :: acc) rest
  | _, [] => none

def natOfDigits (ds : List Char) : Nat :=
  ds.foldl (fun n c => n * 10 + (c.toNat - 48)) 0

/-- JSON number literal (integers only; a fraction or exponent makes the
model parser fail, see the module comment). -/
def parseNumber (cs : List Char) : Option (Json × List Char) :=
  let neg : Bool := match cs with | '-' :: _ => true | _ => false
  let cs2 : List Char := match cs with | '-' :: rest => rest | _ => cs
  let ds := cs2.takeWhile Char.isDigit
  let rest := cs2.drop ds.length
  match ds with
  | [] => none
  | '0' :: _ :: _ => none
  | _ =>
    match rest with
    | '.' :: _ => none
    | 'e' :: _ => none
    | 'E' :: _ => none
    | _ =>
      let n : Int := Int.ofNat (natOfDigits ds)
      some (.num (if neg then -n else n), rest)

mutual

def parseVal : Nat → List Char → Option (Json × List Char)
  | 0, _ => none
  | Nat.succ fuel, cs =>
    match skipWsL cs with
    | [] => none
    | c :: rest =>
      if c == '\x7b' then parseObjBody fuel rest
      else if c == '[' then parseArrBody fuel rest
      else if c == '"' then
        match strLitAux [] rest with
        | some (s, r) => some (.str s, r)
        | none => none
      else if c == 't' then
        match rest with
        | 'r' :: 'u' :: 'e' :: r => some (.bool true, r)
        | _ => none
      else if c == 'f' then
        match rest with
        | 'a' :: 'l' :: 's' :: 'e' :: r => some (.bool false, r)
        | _ => none
      else if c == 'n' then
        match rest with
        | 'u' :: 'l' :: 'l' :: r => some (.null, r)
        | _ => none
      else parseNumber (c :: rest)

/-- Object body after the opening brace. -/
def parseObjBody : Nat → List Char → Option (Json × List Char)
  | 0, _ => none
  | Nat.succ fuel, cs =>
    match skipWsL cs with
    | '\x7d' :: rest => some (.obj [], rest)
    | _ =>
      match parseMembers fuel cs [] with
      | some (kvs, rest) => some (.obj kvs, rest)
      | none => none

def parseMembers : Nat → List Char → List (String × Json) →
    Option (List (String × Json) × List Char)
  | 0, _, _ => none
  | Nat.succ fuel, cs, acc =>
    match skipWsL cs with
    | '"' :: rest =>
      match strLitAux [] rest with
      | some (k, r1) =>
        match skipWsL r1 with
        | ':' :: r2 =>
          match parseVal fuel r2 with
          | some (v, r3) =>
            match skipWsL r3 with
            | ',' :: r4 => parseMembers fuel r4 (setKeyFirst acc k v)
            | '\x7d' :: r4 => some (setKeyFirst acc k v, r4)
            | _ => none
          | none => none
        | _ => none
      | none => none
    | _ => none

/-- Array body after the opening bracket. -/
def parseArrBody : Nat → List Char → Option (Json × List Char)
  | 0, _ => none
  | Nat.succ fuel, cs =>
    match skipWsL cs with
    | ']' :: rest => some (.arr [], rest)
    | _ =>
      match parseElems fuel cs [] with
      | some (xs, rest) => some (.arr xs.reverse, rest)
      | none => none

def parseElems : Nat → List Char → List Json → Option (List Json × List Char)
  | 0, _, _ => none
  | Nat.succ fuel, cs, acc =>
    match parseVal fuel cs with
    | some (v, r1) =>
      match skipWsL r1 with
      | ',' :: r2 => parseElems fuel r2 (v :: acc)
      | ']' :: r2 => some (v :: acc, r2)
      | _ => none
    | none => none

end

/-- Model of `json.loads`: parse one JSON value, require only whitespace
after it. The fuel `3 * length + 3` dominates the recursion depth of any
input. -/
def jsonParse (s : String) : Option Json :=
  match parseVal (3 * s.length + 3) s.data with
  | some (v, rest) => if (skipWsL rest).isEmpty then some v else none
  | none => none

/-! ## The fenced-block regex of `parse_chunk_issues`

`re.search(r"BT BT BT (?:json)?\s*\n(\LB [\s\S]*? \RB)\s*\n BT BT BT", content)`
(with BT a backtick, LB/RB braces, spacing added here only for readability):
leftmost match; the optional `json` tag is tried first; `\s*\n` succeeds iff a
whitespace run containing a newline is followed by the next literal right
after one of its newlines (which pins the split, since the literal is not
whitespace); the group is lazy, so it ends at the first closing brace whose
tail matches. The functions below implement exactly that backtracking
semantics, specialised to this pattern. -/

/-- Python `\s` on ASCII text. -/
def pyWs (c : Char) : Bool :=
  c == ' ' || c == '\t' || c == '\n' || c == '\r' || c == '\x0b' || c == '\x0c'

/-- Does the text start with three backticks? -/
def ticksAhead : List Char → Bool
  | a :: b :: c :: _ => a == '\x60' && b == '\x60' && c == '\x60'
  | _ => false

/-- Match `\s*\n` followed by three backticks (the tail of the pattern). -/
def tailFenceOk : List Char → Bool
  | [] => false
  | c :: rest => (c == '\n' && ticksAhead rest) || (pyWs c && tailFenceOk rest)

/-- The lazy group body: scan for the first closing brace after which the
pattern tail matches; any other character (including earlier closing braces
with a non-matching tail) is absorbed into the group. -/
def lazyBody : List Char → List Char → Option (List Char)
  | _, [] => none
  | acc, c :: rest =>
    if c == '\x7d' && tailFenceOk rest then some (c :: acc).reverse
    else lazyBody (c :: acc) rest

/-- Match `\s*\n` followed by the lazy brace group, returning the group. -/
def afterTicks : List Char → Option (List Char)
  | '\n' :: '\x7b' :: rest => lazyBody ['\x7b'] rest
  | c :: rest => if pyWs c then afterTicks rest else none
  | [] => none

/-- Try to match the whole pattern at this position. -/
def matchFenceAt : List Char → Option (List Char)
  | a :: b :: c :: rest =>
    if a == '\x60' && b == '\x60' && c == '\x60' then
      match rest with
      | 'j' :: 's' :: 'o' :: 'n' :: rest2 =>
        match afterTicks rest2 with
        | some g => some g
        | none => afterTicks rest
      | _ => afterTicks rest
    else none
  | _ => none

/-- `re.search`: leftmost position wins. -/
def searchFence : List Char → Option (List Char)
  | [] => none
  | c :: rest =>
    match matchFenceAt (c :: rest) with
    | some g => some g
    | none => searchFence rest

def findFencedJson (s : String) : Option String :=
  (searchFence s.data).map fun l => String.mk l

/-! ## parse_chunk_issues (backend/app/ai/reviewer.py) -/

/-- `parse_chunk_issues`: find the fenced JSON block, parse it, return the
value under the key `issues` (default: empty list). `none` models an
uncaught exception — the only candidate is `.get` on a non-dict, which the
lemmas below show cannot happen; a `json.JSONDecodeError` is caught and
yields the empty list. -/
def parse_chunk_issues (content : String) : Option Json :=
  match findFencedJson content with
  | none => some (.arr [])
  | some body =>
    match jsonParse body with
    | none => some (.arr [])
    | some (.obj kvs) => some ((lookupKey kvs "issues").getD (.arr []))
    | some _ => none

/-! ## Final issue renumbering (backend/app/ai/reviewer.py, build_merged_review)

The loop `for idx, issue in enumerate(unique_issues, 1): issue["id"] = ...`:
each element must be a dict (a non-dict raises `TypeError`, modelled by
`none`), and the id is assigned positionally. -/

def Json.getIdVal : Json → Option Json
  | .obj kvs => lookupKey kvs "id"
  | _ => none

def renumberFrom : Nat → List Json → Option (List Json)
  | _, [] => some []
  | n, .obj kvs :: rest =>
    match renumberFrom (n + 1) rest with
    | some r => some (.obj (setKeyFirst kvs "id" (.str ("issue-" ++ toString n))) :: r)
    | none => none
  | _, _ :: _ => none

/-- The renumbering loop of `build_merged_review` (ids start at 1). -/
def renumber_issues (issues : List Json) : Option (List Json) :=
  renumberFrom 1 issues

/-- The id sequence produced at a given start index for a given length. -/
def idsFrom : Nat → Nat → List (Option Json)
  | _, 0 => []
  | n, len + 1 => some (.str ("issue-" ++ toString n)) :: idsFrom (n + 1) len

/-! ## build_merged_review (backend/app/ai/reviewer.py)

The four section regexes `###\s*WORD(\s*WORD)\s*\n([\s\S]*?)(?=###|\Z)` (the
Suggestions one also stops at a code fence) are implemented with the same
backtracking-faithful scheme as the fenced-block pattern: `\s*` between the
hashes and the case-insensitive words has a unique viable split (a word never
starts with whitespace), `\s*\n` pins the group start after the last newline
of the whitespace run (the lazy group matches anything, so the greedy longest
split wins), and the lazy group ends at the first occurrence of a terminator
(or the end of the text). JSON serialisation of the final issue block is
modelled compactly; no claim inspects the serialised payload. -/

/-- Exact prefix test. -/
def startsWithL : List Char → List Char → Bool
  | [], _ => true
  | _ :: _, [] => false
  | p :: ps, c :: cs => (p == c) && startsWithL ps cs

/-- Case-insensitive literal word: drop it or fail. -/
def dropCI : List Char → List Char → Option (List Char)
  | [], cs => some cs
  | _ :: _, [] => none
  | p :: ps, c :: cs => if c.toLower == p then dropCI ps cs else none

/-- Consume a whitespace run up to and including its last newline
(the effect of greedy `\s*\n` when followed by a non-whitespace literal). -/
def wsLastNl : List Char → Option (List Char)
  | [] => none
  | c :: rest =>
    if pyWs c then
      match wsLastNl rest with
      | some r => some r
      | none => if c == '\n' then some rest else none
    else none

/-- Match `###\s*w1\s*w2...\s*\n` at this position; return the group start. -/
def matchHeaderAt (words : List (List Char)) (cs : List Char) : Option (List Char) :=
  match cs with
  | '#' :: '#' :: '#' :: rest =>
    match words.foldl (fun acc w => acc.bind fun r => dropCI w (r.dropWhile pyWs)) (some rest) with
    | some r => wsLastNl r
    | none => none
  | _ => none

/-- Leftmost match of the section header. -/
def searchHeader (words : List (List Char)) : List Char → Option (List Char)
  | [] => none
  | c :: rest =>
    match matchHeaderAt words (c :: rest) with
    | some r => some r
    | none => searchHeader words rest

/-- The lazy group with lookahead `(?=TERM|\Z)`: everything up to the first
occurrence of a terminator, or the whole rest. -/
def takeUntilTerms (terms : List (List Char)) : List Char → List Char
  | [] => []
  | c :: rest =>
    if terms.any (fun t => startsWithL t (c :: rest)) then []
    else c :: takeUntilTerms terms rest

/-- Python `str.strip()`. -/
def pyStripL (cs : List Char) : List Char :=
  ((cs.dropWhile pyWs).reverse.dropWhile pyWs).reverse

/-- `re.search(header-pattern).group(1).strip()` as one operation. -/
def extractSec (words terms : List (List Char)) (content : String) : Option String :=
  (searchHeader words content.data).map fun r => String.mk (pyStripL (takeUntilTerms terms r))

/-- Python `needle in hay` on strings. -/
def containsSub (needle : List Char) : List Char → Bool
  | [] => needle.isEmpty
  | c :: rest => startsWithL needle (c :: rest) || containsSub needle rest

def toLowerL (cs : List Char) : List Char := cs.map Char.toLower

def wOverview : List (List Char) := [("overview").data]
def wNeeds : List (List Char) := [("needs").data, ("attention").data]
def wLooking : List (List Char) := [("looking").data, ("good").data]
def wSuggest : List (List Char) := [("suggestions").data]
def termHash : List (List Char) := [("###").data]
def termHashTicks : List (List Char) := [("###").data, ("\x60\x60\x60").data]

/-- One chunk's contribution to the Overview section. -/
def overviewEntry (i : Nat) (content : String) : Option String :=
  if content = "" then none
  else
    match extractSec wOverview termHash content with
    | some t => if t = "" then none else some ("**Chunk " ++ toString (i + 1) ++ ":** " ++ t)
    | none => none

/-- One chunk's contribution to Needs Attention (the canonical
"everything looks good" phrase is excluded, case-insensitively). -/
def needsEntry (content : String) : Option String :=
  if content = "" then none
  else
    match extractSec wNeeds termHash content with
    | some t =>
      if t = "" then none
      else if containsSub ("everything looks good").data (toLowerL t.data) then none
      else some t
    | none => none

def lookingEntry (content : String) : Option String :=
  if content = "" then none
  else
    match extractSec wLooking termHash content with
    | some t => if t = "" then none else some t
    | none => none

def suggestEntry (content : String) : Option String :=
  if content = "" then none
  else
    match extractSec wSuggest termHashTicks content with
    | some t => if t = "" then none else some t
    | none => none

def escapeChars : List Char → List Char
  | [] => []
  | c :: rest =>
    if c == '"' then '\\' :: '"' :: escapeChars rest
    else if c == '\\' then '\\' :: '\\' :: escapeChars rest
    else if c == '\n' then '\\' :: 'n' :: escapeChars rest
    else if c == '\t' then '\\' :: 't' :: escapeChars rest
    else if c == '\r' then '\\' :: 'r' :: escapeChars rest
    else c :: escapeChars rest

def dumpStr (s : String) : String :=
  "\"" ++ String.mk (escapeChars s.data) ++ "\""

mutual

def dumpJson : Json → String
  | .null => "null"
  | .bool true => "true"
  | .bool false => "false"
  | .num n => toString n
  | .str s => dumpStr s
  | .arr xs => "[" ++ dumpJsonList xs ++ "]"
  | .obj kvs => "\x7b" ++ dumpJsonPairs kvs ++ "\x7d"

def dumpJsonList : List Json → String
  | [] => ""
  | [x] => dumpJson x
  | x :: y :: rest => dumpJson x ++ ", " ++ dumpJsonList (y :: rest)

def dumpJsonPairs : List (String × Json) → String
  | [] => ""
  | [(k, v)] => dumpStr k ++ ": " ++ dumpJson v
  | (k, v) :: p :: rest => dumpStr k ++ ": " ++ dumpJson v ++ ", " ++ dumpJsonPairs (p :: rest)

end

/-- A per-chunk error record, as appended to the `errors` list. -/
structure ErrRec where
  chunk : Nat
  pages : String
  error : String
deriving DecidableEq

/-- `build_merged_review`: merge the four prose sections across chunks and
append the renumbered issue block. `none` models the uncaught `TypeError`
raised by the renumbering loop on a non-dict issue. -/
def build_merged_review (chunk_contents : List String) (unique_issues : List Json)
    (errors : List ErrRec) (total_chunks : Nat) : Option String :=
  let all_overview := chunk_contents.enum.filterMap fun p => overviewEntry p.1 p.2
  let all_needs := chunk_contents.filterMap needsEntry
  let all_good := chunk_contents.filterMap lookingEntry
  let all_sugg := chunk_contents.filterMap suggestEntry
  let header :=
    "### Overview\n" ++
    (if errors.isEmpty then
      "*This document was reviewed in " ++ toString total_chunks ++ " chunks.*\n\n"
     else
      "*This document was reviewed in " ++ toString total_chunks ++ " chunks. " ++
        toString errors.length ++ " chunk(s) failed to process.*\n\n") ++
    (if all_overview.isEmpty then "" else String.intercalate "\n\n" all_overview) ++ "\n\n" ++
    "### Needs Attention\n" ++
    (if all_needs.isEmpty then "Everything looks good!"
     else String.intercalate "\n\n" all_needs) ++ "\n\n" ++
    "### Looking Good\n" ++
    (if all_good.isEmpty then "Review completed."
     else String.intercalate "\n\n" (all_good.take 3)) ++ "\n\n" ++
    "### Suggestions\n" ++
    (if all_sugg.isEmpty then "No additional suggestions."
     else String.intercalate "\n\n" all_sugg) ++ "\n\n"
  if unique_issues.isEmpty then some header
  else
    match renumber_issues unique_issues with
    | some ren =>
      some (header ++ "\x60\x60\x60json\n" ++ dumpJson (.obj [("issues", .arr ren)]) ++
        "\n\x60\x60\x60")
    | none => none

/-! ## review_document_chunked (backend/app/ai/reviewer.py)

The chain-mode orchestrator. The generative engine is the nondeterministic
collaborator: one `ChunkOutcome` per chunk index abstracts what
`asyncio.wait_for(_collect_stream(...), CHUNK_TIMEOUT)` does — the collected
text, an `asyncio.TimeoutError`, or a propagated engine error. Everything
downstream of that call is modelled deterministically from the source.

Inside the per-chunk `try`, after `all_content[chunk_idx] = content`, the
short-circuiting check
`any(any(p < actual_start for p in issue.get("pages", [])) for issue in chunk_issues)`
can itself raise (`issue.get` on a non-dict, iterating a non-list, comparing a
non-number); the `except Exception` arm then records a chunk error. That
raise is modelled by `none` from `hasPriorPages`/`issueAnyLt`, and the
(unknowable) `str(e)` message by the fixed string `"exception"` — no claim
reads that message. -/

inductive ChunkOutcome where
  | success (content : String)
  | timeout
  | failure (msg : String)

/-- The loop state: `accumulated_issues`, `all_content`, `errors`. -/
structure ChainSt where
  accumulated : List Json
  contents : List String
  errors : List ErrRec

/-- The events yielded by `review_document_chunked`, with the two shapes of
the terminal `complete` event kept apart exactly as the code builds them. -/
inductive ReviewEvent where
  | review_start (total_chunks : Nat)
  | chunk_progress (chunk : Nat) (total : Nat) (pages : String) (status : String)
      (error : Option String)
  | text (t : String)
  | completeWithErrors (completed_chunks failed_chunks : Nat) (errors : List ErrRec)
  | complete_ok
deriving DecidableEq

def timeoutMsg : String := "Chunk processing timed out after 5 minutes"

/-- Short-circuiting `any(p < s for p in pages)` over a parsed `pages` value;
`none` models a raised exception (non-number before any hit). -/
def pagesAnyLt (s : Int) : List Json → Option Bool
  | [] => some false
  | .num n :: rest => if n < s then some true else pagesAnyLt s rest
  | _ :: _ => none

/-- `any(p < s for p in issue.get("pages", []))` for one issue; `none` models
a raise (`.get` on a non-dict, or a non-list `pages` value). -/
def issueAnyLt (s : Int) (issue : Json) : Option Bool :=
  match issue with
  | .obj kvs =>
    match lookupKey kvs "pages" with
    | none => some false
    | some (.arr ps) => pagesAnyLt s ps
    | some _ => none
  | _ => none

/-- The short-circuiting outer `any(...)` over the parsed issues. -/
def hasPriorPages (s : Int) : List Json → Option Bool
  | [] => some false
  | issue :: rest =>
    match issueAnyLt s issue with
    | some true => some true
    | some false => hasPriorPages s rest
    | none => none

/-- One iteration of the per-chunk loop: the `try`-body on success (store
content, parse issues, replace-or-extend, progress event) and the two
`except` arms (timeout, propagated engine error). -/
def processChunk (total : Nat) (idx : Nat) (c : Int × Int) (o : ChunkOutcome)
    (st : ChainSt) : List ReviewEvent × ChainSt :=
  let pages := toString (c.1 + 1) ++ "-" ++ toString c.2
  match o with
  | .success content =>
    let contents2 := st.contents.set idx content
    let parsed : Option (List Json × Bool) :=
      match parse_chunk_issues content with
      | some (.arr issues) =>
        match hasPriorPages (c.1 + 1) issues with
        | some b => some (issues, b)
        | none => none
      | _ => none
    match parsed with
    | some (issues, b) =>
      ([.chunk_progress (idx + 1) total pages "complete" none],
       { accumulated := if b || idx == 0 then issues else st.accumulated ++ issues
         contents := contents2
         errors := st.errors })
    | none =>
      ([.chunk_progress (idx + 1) total pages "error" (some "exception")],
       { accumulated := st.accumulated
         contents := contents2
         errors := st.errors ++ [⟨idx + 1, pages, "exception"⟩] })
  | .timeout =>
    ([.chunk_progress (idx + 1) total pages "error" (some timeoutMsg)],
     { accumulated := st.accumulated
       contents := st.contents
       errors := st.errors ++ [⟨idx + 1, pages, timeoutMsg⟩] })
  | .failure msg =>
    ([.chunk_progress (idx + 1) total pages "error" (some msg)],
     { accumulated := st.accumulated
       contents := st.contents
       errors := st.errors ++ [⟨idx + 1, pages, msg⟩] })

/-- The `for chunk_idx, (start, end) in enumerate(chunks)` loop. -/
def runChunks (total : Nat) (oracle : Nat → ChunkOutcome) :
    List (Int × Int) → Nat → ChainSt → List ReviewEvent × ChainSt
  | [], _, st => ([], st)
  | c :: rest, idx, st =>
    let r := processChunk total idx c (oracle idx) st
    let r2 := runChunks total oracle rest (idx + 1) r.2
    (r.1 ++ r2.1, r2.2)

/-- The loop run from the initial state (`accumulated_issues = []`,
`all_content = [""] * total_chunks`, `errors = []`). -/
def chainRun (page_count : Int) (oracle : Nat → ChunkOutcome) :
    List ReviewEvent × ChainSt :=
  let chunks := calculate_chunks page_count
  runChunks chunks.length oracle chunks 0
    ⟨[], List.replicate chunks.length "", []⟩

/-- The terminal completion event: `partial` with counts and the error list
when any chunk recorded an error, plain `complete` otherwise. -/
def completeEvent (total : Nat) (errors : List ErrRec) : ReviewEvent :=
  if errors.isEmpty then .complete_ok
  else .completeWithErrors (total - errors.length) errors.length errors

/-- `review_document_chunked` as the sequence of events it yields:
`review_start`, one `chunk_progress` per chunk, then — when any stored chunk
output is non-empty — the merged `text` event, then the terminal completion
event. A `none` from `build_merged_review` is the uncaught merge-time
exception: the generator dies and nothing further is yielded. -/
def review_document_chunked (page_count : Int) (oracle : Nat → ChunkOutcome) :
    List ReviewEvent :=
  let total := (calculate_chunks page_count).length
  let r := chainRun page_count oracle
  let tail :=
    if r.2.contents.any (fun s => s != "") then
      match build_merged_review r.2.contents r.2.accumulated r.2.errors total with
      | some merged => [.text merged, completeEvent total r.2.errors]
      | none => []
    else
      [completeEvent total r.2.errors]
  .review_start total :: r.1 ++ tail

def isChunkProgress : ReviewEvent → Bool
  | .chunk_progress .. => true
  | _ => false

def isTextEvent : ReviewEvent → Bool
  | .text _ => true
  | _ => false

def isCompleteEvent : ReviewEvent → Bool
  | .completeWithErrors .. => true
  | .complete_ok => true
  | _ => false

/-- All-numbers reading of a JSON list. -/
def numListOf : List Json → Option (List Int)
  | [] => some []
  | .num n :: rest =>
    match numListOf rest with
    | some ns => some (n :: ns)
    | none => none
  | _ :: _ => none

/-- The strict (non-short-circuiting) reading of an issue's `pages` list,
used to state the claims: defined exactly when every element is a number. -/
def issuePages (issue : Json) : Option (List Int) :=
  match issue with
  | .obj kvs =>
    match lookupKey kvs "pages" with
    | none => some []
    | some (.arr ps) => numListOf ps
    | some _ => none
  | _ => none

/-- The strict reading of all issues' pages. -/
def issuesPages : List Json → Option (List (List Int))
  | [] => some []
  | i :: rest =>
    match issuePages i, issuesPages rest with
    | some ps, some pss => some (ps :: pss)
    | _, _ => none

/-- The first chunk's model output in the runs below: a fenced block whose
`issues` list holds one well-formed issue referencing page 0 followed by a
bare number — `json.loads` accepts it, the short-circuiting prior-page check
returns true before touching the number, and the merge-time renumbering then
raises on it. -/
def pathologicalContent : String :=
  "\x60\x60\x60json\n\x7b\"issues\": [\x7b\"pages\": [0]\x7d, 5]\x7d\n\x60\x60\x60"

def badOracle : Nat → ChunkOutcome :=
  fun i => if i == 0 then .success pathologicalContent else .timeout

def allTimeout : Nat → ChunkOutcome := fun _ => .timeout

/-- A chunk response whose issues all reference pages inside its own range. -/
def extendContent : String :=
  "\x60\x60\x60json\n\x7b\"issues\": [\x7b\"id\": \"x\", \"pages\": [40]\x7d]\x7d\n\x60\x60\x60"

theorem chunksLoop_stop (page_count start : Int) (h : ¬ start < page_count) :
    chunksLoop page_count start = [] := by
  rw [chunksLoop.eq_def]
  simp [h]

theorem chunksLoop_last (page_count start : Int) (h1 : start < page_count)
    (h2 : page_count ≤ start + 35) :
    chunksLoop page_count start = [(start, page_count)] := by
  have hP : PAGES_PER_CHUNK = 35 := rfl
  rw [chunksLoop.eq_def, dif_pos h1]
  rw [hP, min_eq_right h2]
  rw [dif_pos (le_refl page_count)]

theorem chunksLoop_step (page_count start : Int) (h2 : start + 35 < page_count) :
    chunksLoop page_count start = (start, start + 35) :: chunksLoop page_count (start + 33) := by
  have hP : PAGES_PER_CHUNK = 35 := rfl
  have hO : OVERLAP_PAGES = 2 := rfl
  rw [chunksLoop.eq_def, dif_pos (by omega : start < page_count)]
  rw [hP, hO, min_eq_left (by omega : start + 35 ≤ page_count)]
  rw [dif_neg (by omega : ¬ start + 35 ≥ page_count)]
  rw [dif_neg (by omega : ¬ start + 35 - 2 ≤ start)]
  have h33 : start + 35 - 2 = start + 33 := by omega
  rw [h33]

/-! ### Claims C5 and C6 -/

theorem chunksLoop_length (page_count : Int) :
    ∀ start : Int, (chunksLoop page_count start).length ≤ (page_count - start).toNat := by
  have H : ∀ n : Nat, ∀ start : Int, (page_count - start).toNat ≤ n →
      (chunksLoop page_count start).length ≤ (page_count - start).toNat := by
    intro n
    induction n with
    | zero =>
      intro start h
      rw [chunksLoop_stop page_count start (by omega)]
      simp
    | succ n ih =>
      intro start h
      by_cases h1 : start < page_count
      · by_cases h2 : page_count ≤ start + 35
        · rw [chunksLoop_last page_count start h1 h2]
          simp only [List.length_cons, List.length_nil]
          omega
        · rw [chunksLoop_step page_count start (by omega)]
          simp only [List.length_cons]
          have := ih (start + 33) (by omega)
          omega
      · rw [chunksLoop_stop page_count start h1]
        simp
  intro start
  exact H (page_count - start).toNat start le_rfl

/-- C6: `calculate_chunks` is a total function — it is defined by a
well-founded recursion whose measure is exactly the progress guard of the
source loop — and the loop performs a bounded amount of work: it never
emits more chunks than there are pages. -/
theorem calculate_chunks_terminates (page_count : Int) :
    (calculate_chunks page_count).length ≤ page_count.toNat := by
  unfold calculate_chunks
  split
  · simp
  · have := chunksLoop_length page_count 0
    simpa using this

theorem calculate_chunks_105 :
    calculate_chunks 105 = [(0, 35), (33, 68), (66, 101), (99, 105)] := by
  unfold calculate_chunks
  rw [if_neg (by omega)]
  rw [chunksLoop_step 105 0 (by omega)]
  norm_num
  rw [chunksLoop_step 105 33 (by omega)]
  norm_num
  rw [chunksLoop_step 105 66 (by omega)]
  norm_num
  rw [chunksLoop_last 105 99 (by omega) (by omega)]

theorem calculate_chunks_41 :
    calculate_chunks 41 = [(0, 35), (33, 41)] := by
  unfold calculate_chunks
  rw [if_neg (by omega)]
  rw [chunksLoop_step 41 0 (by omega)]
  norm_num
  rw [chunksLoop_last 41 33 (by omega) (by omega)]

/-- C5: `calculate_chunks` returns `[]` for nonpositive page counts, a single
chunk `(0, page_count)` when `0 < page_count ≤ PAGES_PER_CHUNK`, and for a
105-page document the four chunks `[(0,35), (33,68), (66,101), (99,105)]`,
the last of which ends exactly at `page_count`. -/
theorem calculate_chunks_spec (page_count : Int) :
    (page_count ≤ 0 → calculate_chunks page_count = [])
    ∧ (0 < page_count → page_count ≤ 35 → calculate_chunks page_count = [(0, page_count)])
    ∧ calculate_chunks 105 = [(0, 35), (33, 68), (66, 101), (99, 105)]
    ∧ (calculate_chunks 105).getLast? = some (99, 105) := by
  have h105 := calculate_chunks_105
  refine ⟨?_, ?_, h105, ?_⟩
  · intro h
    unfold calculate_chunks
    simp [h]
  · intro h1 h2
    unfold calculate_chunks
    rw [if_neg (by omega)]
    rw [chunksLoop_last page_count 0 (by omega) (by omega)]
  · rw [h105]
    rfl

/-- Witness for C5: concrete instances of the conditional parts. -/
theorem calculate_chunks_spec_witness :
    calculate_chunks (-3) = [] ∧ calculate_chunks 20 = [(0, 20)] :=
  ⟨(calculate_chunks_spec (-3)).1 (by norm_num),
   (calculate_chunks_spec 20).2.1 (by norm_num) (by norm_num)⟩

/-- C7: `filter_extraction_for_chunk` retains exactly the per-page items whose
1-indexed page lies in `[start+1, end]`, keeps every retained item verbatim
(in particular its absolute page number) and in the original order, passes the
document-wide font summary through unfiltered, and rewrites the metadata page
count to `end - start`. -/
theorem filter_extraction_for_chunk_spec (extraction : ExtractionResult)
    (start_page end_page : Int) :
    (∀ tb : TextBlock, tb ∈ (filter_extraction_for_chunk extraction start_page end_page).text_blocks
      ↔ tb ∈ extraction.text_blocks ∧ start_page + 1 ≤ tb.page ∧ tb.page ≤ end_page)
    ∧ (∀ img : ImageInfo, img ∈ (filter_extraction_for_chunk extraction start_page end_page).images
      ↔ img ∈ extraction.images ∧ start_page + 1 ≤ img.page ∧ img.page ≤ end_page)
    ∧ (∀ m : PageMargins, m ∈ (filter_extraction_for_chunk extraction start_page end_page).margins
      ↔ m ∈ extraction.margins ∧ start_page + 1 ≤ m.page ∧ m.page ≤ end_page)
    ∧ (filter_extraction_for_chunk extraction start_page end_page).text_blocks.Sublist
        extraction.text_blocks
    ∧ (filter_extraction_for_chunk extraction start_page end_page).images.Sublist
        extraction.images
    ∧ (filter_extraction_for_chunk extraction start_page end_page).margins.Sublist
        extraction.margins
    ∧ (filter_extraction_for_chunk extraction start_page end_page).fonts = extraction.fonts
    ∧ (filter_extraction_for_chunk extraction start_page end_page).metadata.page_count
        = end_page - start_page := by
  refine ⟨?_, ?_, ?_, ?_, ?_, ?_, rfl, rfl⟩
  · intro tb
    simp [filter_extraction_for_chunk, is_page_in_range, List.mem_filter, and_assoc]
  · intro img
    simp [filter_extraction_for_chunk, is_page_in_range, List.mem_filter, and_assoc]
  · intro m
    simp [filter_extraction_for_chunk, is_page_in_range, List.mem_filter, and_assoc]
  · exact List.filter_sublist _
  · exact List.filter_sublist _
  · exact List.filter_sublist _

/-! ### Structure of the values `parse_chunk_issues` can produce -/

theorem lazyBody_shape : ∀ (cs acc r : List Char), lazyBody acc cs = some r →
    ∃ t, r = acc.reverse ++ t := by
  intro cs
  induction cs with
  | nil => intro acc r h; simp [lazyBody] at h
  | cons c rest ih =>
    intro acc r h
    rw [lazyBody] at h
    by_cases hc : (c == '\x7d' && tailFenceOk rest) = true
    · rw [if_pos hc] at h
      exact ⟨[c], by simpa [List.reverse_cons] using h.symm⟩
    · rw [if_neg hc] at h
      obtain ⟨t, ht⟩ := ih (c :: acc) r h
      exact ⟨c :: t, by simpa [List.reverse_cons] using ht⟩

theorem afterTicks_shape : ∀ (cs g : List Char), afterTicks cs = some g →
    ∃ t, g = '\x7b' :: t := by
  intro cs
  induction cs with
  | nil => intro g h; simp [afterTicks] at h
  | cons c rest ih =>
    intro g h
    rw [afterTicks.eq_def] at h
    split at h
    · next rest2 heq =>
      obtain ⟨t, ht⟩ := lazyBody_shape rest2 ['\x7b'] g h
      exact ⟨t, by simpa using ht⟩
    · next c2 rest2 heq =>
      injection heq with h1 h2
      subst h1
      subst h2
      split at h
      · exact ih g h
      · exact absurd h (by simp)
    · next heq => simp at h

theorem matchFenceAt_shape (cs g : List Char) (h : matchFenceAt cs = some g) :
    ∃ t, g = '\x7b' :: t := by
  rw [matchFenceAt.eq_def] at h
  split at h
  · split at h
    · next =>
      split at h
      · next h1 =>
        split at h
        · next hsome => exact afterTicks_shape _ g (by rw [hsome]; exact h)
        · exact afterTicks_shape _ g h
      · exact afterTicks_shape _ g h
    · simp at h
  · simp at h

theorem searchFence_shape : ∀ (cs g : List Char), searchFence cs = some g →
    ∃ t, g = '\x7b' :: t := by
  intro cs
  induction cs with
  | nil => intro g h; simp [searchFence] at h
  | cons c rest ih =>
    intro g h
    rw [searchFence] at h
    split at h
    · next hm => exact matchFenceAt_shape _ g (by rw [hm]; exact h)
    · exact ih g h

theorem parseObjBody_isObj (fuel : Nat) (cs : List Char) (v : Json) (r : List Char)
    (h : parseObjBody fuel cs = some (v, r)) : ∃ kvs, v = .obj kvs := by
  match fuel with
  | 0 => simp [parseObjBody] at h
  | Nat.succ fuel =>
    rw [parseObjBody] at h
    split at h
    · exact ⟨[], by simp_all⟩
    · split at h
      · next kvs rest hm => exact ⟨kvs, by simp_all⟩
      · simp at h

theorem parseVal_lbrace (fuel : Nat) (t : List Char) (v : Json) (r : List Char)
    (h : parseVal fuel ('\x7b' :: t) = some (v, r)) : ∃ kvs, v = .obj kvs := by
  match fuel with
  | 0 => simp [parseVal] at h
  | Nat.succ fuel =>
    rw [parseVal] at h
    have hws : skipWsL ('\x7b' :: t) = '\x7b' :: t := by
      rw [skipWsL]
      simp [jsonWs]
    rw [hws] at h
    simp only [show ('\x7b' == '\x7b') = true from rfl, if_pos] at h
    exact parseObjBody_isObj fuel t v r h

theorem jsonParse_lbrace (t : List Char) (v : Json)
    (h : jsonParse (String.mk ('\x7b' :: t)) = some v) : ∃ kvs, v = .obj kvs := by
  rw [jsonParse] at h
  split at h
  · next v0 rest hp =>
    obtain ⟨kvs, hkvs⟩ := parseVal_lbrace _ _ v0 rest hp
    split at h
    · exact ⟨kvs, by simp_all⟩
    · simp at h
  · simp at h

/-! ### Claim C8 -/

/-- C8: `parse_chunk_issues` never raises — it is total (`isSome`) on every
input — and in particular returns the empty issue list both when the text has
no fenced block and when the fenced block is not valid JSON. -/
theorem parse_issues_never_raises (content : String) :
    (parse_chunk_issues content).isSome = true
    ∧ (findFencedJson content = none → parse_chunk_issues content = some (.arr []))
    ∧ (∀ body, findFencedJson content = some body → jsonParse body = none →
        parse_chunk_issues content = some (.arr [])) := by
  refine ⟨?_, ?_, ?_⟩
  · cases hf : findFencedJson content with
    | none => simp [parse_chunk_issues, hf]
    | some body =>
      obtain ⟨g, hg, hbody⟩ : ∃ g, searchFence content.data = some g ∧ body = String.mk g := by
        rw [findFencedJson] at hf
        cases hs : searchFence content.data with
        | none => rw [hs] at hf; simp at hf
        | some g => rw [hs] at hf; exact ⟨g, rfl, by simpa using hf.symm⟩
      obtain ⟨t, ht⟩ := searchFence_shape _ g hg
      cases hj : jsonParse body with
      | none => simp [parse_chunk_issues, hf, hj]
      | some v =>
        obtain ⟨kvs, hkvs⟩ := jsonParse_lbrace t v (by rw [← ht, ← hbody]; exact hj)
        subst hkvs
        simp [parse_chunk_issues, hf, hj]
  · intro h
    simp [parse_chunk_issues, h]
  · intro body h hj
    simp [parse_chunk_issues, h, hj]

/-- Witness for C8 at two concrete inputs: a text with no fenced block, and a
fenced block that is not valid JSON. -/
theorem parse_issues_never_raises_witness :
    parse_chunk_issues "There are no issues on these pages." = some (.arr [])
    ∧ parse_chunk_issues "\x60\x60\x60\n\x7bnot valid json\x7d\n\x60\x60\x60" = some (.arr []) :=
  ⟨(parse_issues_never_raises "There are no issues on these pages.").2.1 rfl,
   (parse_issues_never_raises "\x60\x60\x60\n\x7bnot valid json\x7d\n\x60\x60\x60").2.2
     "\x7bnot valid json\x7d" rfl rfl⟩

/-! ### Claim C3 -/

theorem matchFenceAt_no_tick (c : Char) (rest : List Char) (h : c ≠ '\x60') :
    matchFenceAt (c :: rest) = none := by
  have hb : (c == '\x60') = false := by simpa using h
  rw [matchFenceAt.eq_def]
  split
  · next a b c2 r heq =>
    injection heq with e1 e2
    subst e1
    simp [hb]
  · rfl

theorem searchFence_skip (pre : List Char) (rest : List Char)
    (hpre : ∀ c ∈ pre, c ≠ '\x60') :
    searchFence (pre ++ rest) = searchFence rest := by
  induction pre with
  | nil => rfl
  | cons c pre ih =>
    rw [List.cons_append, searchFence]
    rw [matchFenceAt_no_tick c _ (hpre c (by simp))]
    exact ih fun d hd => hpre d (by simp [hd])

theorem lazyBody_through : ∀ (inner acc tl : List Char), '\x7d' ∉ inner →
    tailFenceOk tl = true →
    lazyBody acc (inner ++ '\x7d' :: tl) = some (acc.reverse ++ inner ++ ['\x7d']) := by
  intro inner
  induction inner with
  | nil =>
    intro acc tl _ htl
    rw [List.nil_append, lazyBody]
    simp [htl, List.reverse_cons]
  | cons c0 inner ih =>
    intro acc tl hmem htl
    have hc0 : c0 ≠ '\x7d' := fun h => hmem (by simp [h])
    rw [List.cons_append, lazyBody]
    have : (c0 == '\x7d' && tailFenceOk (inner ++ '\x7d' :: tl)) = false := by
      simp [hc0]
    rw [if_neg (by simp [this])]
    rw [ih (c0 :: acc) tl (fun h => hmem (by simp [h])) htl]
    simp

/-- The full pattern matches at the head of a well-formed fenced block whose
body contains no closing brace before its final one. -/
theorem matchFenceAt_fence (inner tl : List Char) (hinner : '\x7d' ∉ inner)
    (htl : tailFenceOk tl = true) :
    matchFenceAt ('\x60' :: '\x60' :: '\x60' :: 'j' :: 's' :: 'o' :: 'n' :: '\n' :: '\x7b' ::
      (inner ++ '\x7d' :: tl)) = some ('\x7b' :: (inner ++ ['\x7d'])) := by
  rw [matchFenceAt]
  rw [if_pos (by rfl)]
  rw [afterTicks]
  rw [lazyBody_through inner ['\x7b'] tl hinner htl]
  simp

/-- C3 (amended): `parse_chunk_issues` uses the FIRST fenced JSON block, not
the last: for any input of the form `pre ++ fenced-json-block ++ post` where
`pre` contains no backtick and the block body is a JSON object whose interior
has no closing brace, the result is that first block's `issues` value — for
every suffix `post`, including ones carrying further fenced blocks. -/
theorem parse_chunk_issues_first_block (pre inner post : List Char)
    (kvs : List (String × Json))
    (hpre : ∀ c ∈ pre, c ≠ '\x60')
    (hinner : '\x7d' ∉ inner)
    (hjson : jsonParse (String.mk ('\x7b' :: (inner ++ ['\x7d']))) = some (.obj kvs)) :
    parse_chunk_issues (String.mk (pre ++ '\x60' :: '\x60' :: '\x60' :: 'j' :: 's' :: 'o' :: 'n' ::
        '\n' :: '\x7b' :: (inner ++ '\x7d' :: '\n' :: '\x60' :: '\x60' :: '\x60' :: post)))
      = some ((lookupKey kvs "issues").getD (.arr [])) := by
  have htl : tailFenceOk ('\n' :: '\x60' :: '\x60' :: '\x60' :: post) = true := by
    rw [tailFenceOk]
    simp [ticksAhead]
  have hsearch : searchFence (pre ++ '\x60' :: '\x60' :: '\x60' :: 'j' :: 's' :: 'o' :: 'n' ::
      '\n' :: '\x7b' :: (inner ++ '\x7d' :: '\n' :: '\x60' :: '\x60' :: '\x60' :: post))
      = some ('\x7b' :: (inner ++ ['\x7d'])) := by
    rw [searchFence_skip pre _ hpre]
    rw [searchFence]
    rw [matchFenceAt_fence inner _ hinner htl]
  have hdata : (String.mk (pre ++ '\x60' :: '\x60' :: '\x60' :: 'j' :: 's' :: 'o' :: 'n' ::
      '\n' :: '\x7b' :: (inner ++ '\x7d' :: '\n' :: '\x60' :: '\x60' :: '\x60' :: post))).data
      = pre ++ '\x60' :: '\x60' :: '\x60' :: 'j' :: 's' :: 'o' :: 'n' ::
        '\n' :: '\x7b' :: (inner ++ '\x7d' :: '\n' :: '\x60' :: '\x60' :: '\x60' :: post) := rfl
  have hjson2 : jsonParse (String.mk ('\x7b' :: (inner ++ '\x7d' :: []))) = some (.obj kvs) := by
    simpa using hjson
  simp [parse_chunk_issues, findFencedJson, hdata, hsearch, hjson2]

/-- Witness for C3's amended theorem: a concrete text whose suffix carries a
second fenced block with different issues; the first block's issues win. -/
theorem parse_chunk_issues_first_block_witness :
    parse_chunk_issues (String.mk (("Review notes:\n").data ++ '\x60' :: '\x60' :: '\x60' ::
        'j' :: 's' :: 'o' :: 'n' :: '\n' :: '\x7b' :: (("\"issues\": [1]").data ++ '\x7d' ::
        '\n' :: '\x60' :: '\x60' :: '\x60' ::
        ("\n\x60\x60\x60json\n\x7b\"issues\": [2]\x7d\n\x60\x60\x60").data)))
      = some (.arr [.num 1]) := by
  have h := parse_chunk_issues_first_block ("Review notes:\n").data ("\"issues\": [1]").data
    (("\n\x60\x60\x60json\n\x7b\"issues\": [2]\x7d\n\x60\x60\x60").data)
    [("issues", .arr [.num 1])]
    (by decide) (by decide) (by rfl)
  exact h

/-- C3 counterexample: on an input with two fenced JSON blocks the code
returns the FIRST block's issues, while the claim says the issues of the LAST
such block are returned; the two blocks carry different issues. -/
theorem parse_chunk_issues_last_block_counterexample :
    parse_chunk_issues ("text\n\x60\x60\x60json\n\x7b\"issues\": [\x7b\"id\": \"first\"\x7d]\x7d\n\x60\x60\x60\nmid\n\x60\x60\x60json\n\x7b\"issues\": [\x7b\"id\": \"second\"\x7d]\x7d\n\x60\x60\x60")
      = some (.arr [.obj [("id", .str "first")]])
    ∧ jsonParse "\x7b\"issues\": [\x7b\"id\": \"second\"\x7d]\x7d"
      = some (.obj [("issues", .arr [.obj [("id", .str "second")]])])
    ∧ Json.arr [.obj [("id", .str "first")]] ≠ Json.arr [.obj [("id", .str "second")]] := by
  refine ⟨by rfl, by rfl, ?_⟩
  intro h
  simp only [Json.arr.injEq, List.cons.injEq, Json.obj.injEq, Prod.mk.injEq,
    Json.str.injEq, and_true, List.cons.injEq, and_true] at h
  exact absurd h.2 (by decide)

/-! ### Claim C9 -/

theorem setKeyFirst_idem : ∀ (kvs : List (String × Json)) (k : String) (v : Json),
    setKeyFirst (setKeyFirst kvs k v) k v = setKeyFirst kvs k v := by
  intro kvs k v
  induction kvs with
  | nil => simp [setKeyFirst]
  | cons kv rest ih =>
    obtain ⟨k0, v0⟩ := kv
    by_cases h : (k0 == k) = true
    · simp [setKeyFirst, h]
    · have hf : (k0 == k) = false := by simpa using h
      simp [setKeyFirst, hf, ih]

theorem lookupKey_setKeyFirst : ∀ (kvs : List (String × Json)) (k : String) (v : Json),
    lookupKey (setKeyFirst kvs k v) k = some v := by
  intro kvs k v
  induction kvs with
  | nil => simp [setKeyFirst, lookupKey]
  | cons kv rest ih =>
    obtain ⟨k0, v0⟩ := kv
    by_cases h : (k0 == k) = true
    · simp [setKeyFirst, h, lookupKey]
    · simp [setKeyFirst, h, lookupKey, ih]

theorem renumberFrom_idem : ∀ (l : List Json) (n : Nat) (r : List Json),
    renumberFrom n l = some r → renumberFrom n r = some r := by
  intro l
  induction l with
  | nil =>
    intro n r h
    simp only [renumberFrom, Option.some.injEq] at h
    subst h
    rfl
  | cons j rest ih =>
    intro n r h
    match j, h with
    | .obj kvs, h =>
      rw [renumberFrom] at h
      cases hrec : renumberFrom (n + 1) rest with
      | none => rw [hrec] at h; simp at h
      | some r2 =>
        rw [hrec] at h
        simp only [Option.some.injEq] at h
        subst h
        rw [renumberFrom]
        rw [ih (n + 1) r2 hrec]
        rw [setKeyFirst_idem]

theorem renumberFrom_ids : ∀ (l : List Json) (n : Nat) (r : List Json),
    renumberFrom n l = some r → r.map Json.getIdVal = idsFrom n l.length := by
  intro l
  induction l with
  | nil =>
    intro n r h
    simp [renumberFrom] at h
    simp [← h, idsFrom]
  | cons j rest ih =>
    intro n r h
    match j, h with
    | .obj kvs, h =>
      rw [renumberFrom] at h
      cases hrec : renumberFrom (n + 1) rest with
      | none => rw [hrec] at h; simp at h
      | some r2 =>
        rw [hrec] at h
        simp only [Option.some.injEq] at h
        subst h
        simp only [List.map_cons, List.length_cons, idsFrom, List.cons.injEq]
        exact ⟨by simp [Json.getIdVal, lookupKey_setKeyFirst], ih (n + 1) r2 hrec⟩

/-- C9: the final renumbering is idempotent — renumbering an already
renumbered list reproduces it exactly — and the assigned ids depend only on
the positions (any two renumbered lists of equal length carry identical id
sequences), never on the issues' previous ids. -/
theorem renumber_issues_idempotent_positional :
    (∀ l r, renumber_issues l = some r → renumber_issues r = some r)
    ∧ (∀ l1 l2 r1 r2, renumber_issues l1 = some r1 → renumber_issues l2 = some r2 →
        l1.length = l2.length → r1.map Json.getIdVal = r2.map Json.getIdVal) := by
  constructor
  · intro l r h
    exact renumberFrom_idem l 1 r h
  · intro l1 l2 r1 r2 h1 h2 hlen
    rw [renumberFrom_ids l1 1 r1 h1, renumberFrom_ids l2 1 r2 h2, hlen]

/-- Witness for C9: renumbering a concrete two-issue list (one of which
already carries an unrelated id) is reproduced exactly by a second pass. -/
theorem renumber_issues_idempotent_positional_witness :
    renumber_issues [.obj [("id", .str "zzz"), ("title", .str "t")], .obj []]
      = some [.obj [("id", .str "issue-1"), ("title", .str "t")],
              .obj [("id", .str "issue-2")]]
    ∧ renumber_issues [.obj [("id", .str "issue-1"), ("title", .str "t")],
              .obj [("id", .str "issue-2")]]
      = some [.obj [("id", .str "issue-1"), ("title", .str "t")],
              .obj [("id", .str "issue-2")]] :=
  ⟨rfl, renumber_issues_idempotent_positional.1
    [.obj [("id", .str "zzz"), ("title", .str "t")], .obj []]
    [.obj [("id", .str "issue-1"), ("title", .str "t")], .obj [("id", .str "issue-2")]]
    rfl⟩

/-! ### Claim C1 -/

theorem pagesAnyLt_eq : ∀ (ps : List Json) (ns : List Int) (s : Int),
    numListOf ps = some ns →
    pagesAnyLt s ps = some (ns.any fun n => decide (n < s)) := by
  intro ps
  induction ps with
  | nil =>
    intro ns s h
    simp only [numListOf, Option.some.injEq] at h
    subst h
    rfl
  | cons p rest ih =>
    intro ns s h
    match p, h with
    | .num n, h =>
      rw [numListOf] at h
      cases hrest : numListOf rest with
      | none => rw [hrest] at h; simp at h
      | some ns2 =>
        rw [hrest] at h
        simp only [Option.some.injEq] at h
        subst h
        by_cases hn : n < s
        · simp [pagesAnyLt, hn]
        · simp only [pagesAnyLt, if_neg hn, ih ns2 s hrest, List.any_cons]
          simp [hn]

theorem issueAnyLt_eq (issue : Json) (ps : List Int) (s : Int)
    (h : issuePages issue = some ps) :
    issueAnyLt s issue = some (ps.any fun n => decide (n < s)) := by
  match issue, h with
  | .obj kvs, h =>
    rw [issuePages] at h
    rw [issueAnyLt]
    cases hk : lookupKey kvs "pages" with
    | none =>
      rw [hk] at h
      simp only [Option.some.injEq] at h
      subst h
      rfl
    | some v =>
      rw [hk] at h
      match v, h with
      | .arr l, h => exact pagesAnyLt_eq l ps s h

theorem hasPriorPages_eq : ∀ (issues : List Json) (pss : List (List Int)) (s : Int),
    issuesPages issues = some pss →
    hasPriorPages s issues = some (pss.any fun ps => ps.any fun n => decide (n < s)) := by
  intro issues
  induction issues with
  | nil =>
    intro pss s h
    simp only [issuesPages, Option.some.injEq] at h
    subst h
    rfl
  | cons i rest ih =>
    intro pss s h
    rw [issuesPages] at h
    cases hi : issuePages i with
    | none => rw [hi] at h; simp at h
    | some ps =>
      rw [hi] at h
      cases hrest : issuesPages rest with
      | none => rw [hrest] at h; simp at h
      | some pss2 =>
        rw [hrest] at h
        simp only [Option.some.injEq] at h
        subst h
        rw [hasPriorPages]
        rw [issueAnyLt_eq i ps s hi]
        by_cases hp : (ps.any fun n => decide (n < s)) = true
        · simp [hp]
        · have hpf : (ps.any fun n => decide (n < s)) = false := by simpa using hp
          simp only [hpf]
          rw [ih pss2 s hrest]
          simp [List.any_cons, hpf]

/-- C1: on a successful chunk whose issues parse cleanly, the consolidated
state is REPLACED by the parsed list when the chunk is the first one or some
parsed issue references a page strictly before the chunk's first absolute
(1-indexed) page, and otherwise the parsed issues are APPENDED after all
previously accumulated issues, preserving them and their order. -/
theorem chain_replace_or_extend (total idx : Nat) (start endp : Int) (content : String)
    (st : ChainSt) (issues : List Json) (pss : List (List Int))
    (hparse : parse_chunk_issues content = some (.arr issues))
    (hwf : issuesPages issues = some pss) :
    ((idx = 0 ∨ ∃ ps ∈ pss, ∃ p ∈ ps, p < start + 1) →
      (processChunk total idx (start, endp) (.success content) st).2.accumulated = issues)
    ∧ ((idx ≠ 0 ∧ ∀ ps ∈ pss, ∀ p ∈ ps, ¬ p < start + 1) →
      (processChunk total idx (start, endp) (.success content) st).2.accumulated
        = st.accumulated ++ issues) := by
  have hhp := hasPriorPages_eq issues pss (start + 1) hwf
  constructor
  · rintro (h0 | ⟨ps, hps, p, hp, hlt⟩)
    · simp [processChunk, hparse, hhp, h0]
    · have hb : (pss.any fun ps => ps.any fun n => decide (n < start + 1)) = true := by
        rw [List.any_eq_true]
        exact ⟨ps, hps, by rw [List.any_eq_true]; exact ⟨p, hp, by simpa using hlt⟩⟩
      simp [processChunk, hparse, hhp, hb]
  · rintro ⟨h0, hall⟩
    have hb : (pss.any fun ps => ps.any fun n => decide (n < start + 1)) = false := by
      rw [List.any_eq_false]
      intro ps hps
      rw [Bool.not_eq_true, List.any_eq_false]
      intro p hp
      simpa using hall ps hps p hp
    have hi : (idx == 0) = false := by simpa using h0
    simp [processChunk, hparse, hhp, hb, hi]

/-- Witness for C1 at a concrete non-first chunk (pages 34-68) whose single
parsed issue references page 40 ≥ 34: the state is extended, not replaced. -/
theorem chain_replace_or_extend_witness :
    (processChunk 4 1 (33, 68) (.success extendContent)
        ⟨[.obj [("id", .str "p")]], ["a", "", "", ""], []⟩).2.accumulated
      = [.obj [("id", .str "p")]] ++ [.obj [("id", .str "x"), ("pages", .arr [.num 40])]] :=
  (chain_replace_or_extend 4 1 33 68 extendContent
      ⟨[.obj [("id", .str "p")]], ["a", "", "", ""], []⟩
      [.obj [("id", .str "x"), ("pages", .arr [.num 40])]] [[40]] rfl rfl).2
    ⟨by decide, by decide⟩

/-! ### Claim C2 -/

theorem processChunk_progress_event (total idx : Nat) (c : Int × Int) (o : ChunkOutcome)
    (st : ChainSt) :
    ∃ status err, (processChunk total idx c o st).1
      = [.chunk_progress (idx + 1) total (toString (c.1 + 1) ++ "-" ++ toString c.2) status err] := by
  cases o with
  | success content =>
    rw [processChunk]
    split
    · exact ⟨"complete", none, rfl⟩
    · exact ⟨"error", some "exception", rfl⟩
  | timeout => exact ⟨"error", some timeoutMsg, rfl⟩
  | failure msg => exact ⟨"error", some msg, rfl⟩

theorem runChunks_events (total : Nat) (oracle : Nat → ChunkOutcome) :
    ∀ (chunks : List (Int × Int)) (idx : Nat) (st : ChainSt),
      (∀ e ∈ (runChunks total oracle chunks idx st).1, isChunkProgress e = true)
      ∧ (runChunks total oracle chunks idx st).1.length = chunks.length := by
  intro chunks
  induction chunks with
  | nil => intro idx st; simp [runChunks]
  | cons c rest ih =>
    intro idx st
    obtain ⟨status, err, hev⟩ :=
      processChunk_progress_event total idx c (oracle idx) st
    constructor
    · intro e he
      simp only [runChunks, List.mem_append] at he
      rcases he with he | he
      · rw [hev] at he
        simp only [List.mem_singleton] at he
        subst he
        rfl
      · exact (ih (idx + 1) (processChunk total idx c (oracle idx) st).2).1 e he
    · simp only [runChunks, List.length_append, hev, List.length_cons, List.length_nil,
        List.length_cons]
      rw [(ih (idx + 1) (processChunk total idx c (oracle idx) st).2).2]
      omega

theorem isChunkProgress_completeEvent (total : Nat) (errors : List ErrRec) :
    isChunkProgress (completeEvent total errors) = false := by
  rw [completeEvent]
  split <;> rfl

/-- C2: a chunk timeout yields exactly one `chunk_progress` event with status
`error` and the timeout message, leaves the accumulated issue list and the
stored chunk outputs untouched (only the error list grows), and the
orchestrator still attempts every chunk: every run emits exactly one
`chunk_progress` event per planned chunk, whatever the outcomes. -/
theorem chunk_timeout_recovery :
    (∀ (total idx : Nat) (c : Int × Int) (st : ChainSt),
      (processChunk total idx c .timeout st).1
        = [.chunk_progress (idx + 1) total (toString (c.1 + 1) ++ "-" ++ toString c.2)
            "error" (some timeoutMsg)]
      ∧ (processChunk total idx c .timeout st).2.accumulated = st.accumulated
      ∧ (processChunk total idx c .timeout st).2.contents = st.contents
      ∧ (processChunk total idx c .timeout st).2.errors
          = st.errors ++ [⟨idx + 1, toString (c.1 + 1) ++ "-" ++ toString c.2, timeoutMsg⟩])
    ∧ ∀ (page_count : Int) (oracle : Nat → ChunkOutcome),
        (review_document_chunked page_count oracle).countP isChunkProgress
          = (calculate_chunks page_count).length := by
  constructor
  · intro total idx c st
    exact ⟨rfl, rfl, rfl, rfl⟩
  · intro page_count oracle
    rw [review_document_chunked]
    simp only [List.countP_cons, List.countP_append]
    have hloop := runChunks_events (calculate_chunks page_count).length oracle
      (calculate_chunks page_count) 0 ⟨[], List.replicate (calculate_chunks page_count).length "", []⟩
    have h1 : (chainRun page_count oracle).1.countP isChunkProgress
        = (calculate_chunks page_count).length := by
      rw [List.countP_eq_length.mpr]
      · exact (by rw [chainRun]; exact hloop.2)
      · rw [chainRun]; exact hloop.1
    have h2 : ∀ tail : List ReviewEvent, (∀ e ∈ tail, isChunkProgress e = false) →
        tail.countP isChunkProgress = 0 := by
      intro tail h
      rw [List.countP_eq_zero]
      intro e he
      simp [h e he]
    rw [h1]
    have htail : (if (chainRun page_count oracle).2.contents.any (fun s => s != "") then
        match build_merged_review (chainRun page_count oracle).2.contents
          (chainRun page_count oracle).2.accumulated (chainRun page_count oracle).2.errors
          (calculate_chunks page_count).length with
        | some merged => [.text merged,
            completeEvent (calculate_chunks page_count).length (chainRun page_count oracle).2.errors]
        | none => []
      else [completeEvent (calculate_chunks page_count).length
        (chainRun page_count oracle).2.errors]).countP isChunkProgress = 0 := by
      apply h2
      intro e he
      split at he
      · split at he
        · simp only [List.mem_cons, List.mem_singleton] at he
          rcases he with he | he | he
          · subst he; rfl
          · subst he; exact isChunkProgress_completeEvent _ _
          · cases he
        · cases he
      · simp only [List.mem_singleton] at he
        subst he
        exact isChunkProgress_completeEvent _ _
    rw [htail]
    rfl

/-! ### Claims C4 and C10 -/

theorem renumberFrom_isSome : ∀ (l : List Json) (n : Nat),
    (∀ j ∈ l, j.isObj = true) → ∃ r, renumberFrom n l = some r := by
  intro l
  induction l with
  | nil => intro n _; exact ⟨[], rfl⟩
  | cons j rest ih =>
    intro n h
    have hj := h j (by simp)
    match j, hj with
    | .obj kvs, _ =>
      obtain ⟨r, hr⟩ := ih (n + 1) fun j hj => h j (by simp [hj])
      exact ⟨_, by rw [renumberFrom, hr]⟩

theorem build_merged_review_isSome (chunk_contents : List String) (unique_issues : List Json)
    (errors : List ErrRec) (total_chunks : Nat)
    (h : ∀ j ∈ unique_issues, j.isObj = true) :
    ∃ m, build_merged_review chunk_contents unique_issues errors total_chunks = some m := by
  rw [build_merged_review]
  by_cases he : unique_issues.isEmpty
  · simp only [he, if_pos]
    exact ⟨_, rfl⟩
  · simp only [he, Bool.false_eq_true, if_false]
    obtain ⟨r, hr⟩ := renumberFrom_isSome unique_issues 1 h
    rw [renumber_issues] at *
    rw [hr]
    exact ⟨_, rfl⟩

theorem isTextEvent_completeEvent (total : Nat) (errors : List ErrRec) :
    isTextEvent (completeEvent total errors) = false := by
  rw [completeEvent]
  split <;> rfl

theorem isTextEvent_of_progress (e : ReviewEvent) (h : isChunkProgress e = true) :
    isTextEvent e = false := by
  cases e <;> simp_all [isChunkProgress, isTextEvent]

/-- C10 (amended): provided the final accumulated issues are all JSON objects
(so that the merge-time renumbering cannot raise), the merged `text` event is
emitted exactly when at least one chunk stored a non-empty raw output; and
when all stored outputs are empty the stream is exactly `review_start`, the
`chunk_progress` events, and the terminal completion event, with no `text`
event in between. -/
theorem text_event_iff (page_count : Int) (oracle : Nat → ChunkOutcome)
    (hobj : ∀ j ∈ (chainRun page_count oracle).2.accumulated, j.isObj = true) :
    ((review_document_chunked page_count oracle).countP isTextEvent
      = if (chainRun page_count oracle).2.contents.any (fun s => s != "") then 1 else 0)
    ∧ ((chainRun page_count oracle).2.contents.any (fun s => s != "") = false →
        review_document_chunked page_count oracle
          = .review_start (calculate_chunks page_count).length
              :: (chainRun page_count oracle).1
              ++ [completeEvent (calculate_chunks page_count).length
                    (chainRun page_count oracle).2.errors]
          ∧ ∀ e ∈ (chainRun page_count oracle).1, isChunkProgress e = true) := by
  have hcr : chainRun page_count oracle
      = runChunks (calculate_chunks page_count).length oracle (calculate_chunks page_count) 0
          ⟨[], List.replicate (calculate_chunks page_count).length "", []⟩ := rfl
  have hprog : ∀ e ∈ (chainRun page_count oracle).1, isChunkProgress e = true := by
    rw [hcr]
    exact (runChunks_events (calculate_chunks page_count).length oracle
      (calculate_chunks page_count) 0 _).1
  have htext0 : (chainRun page_count oracle).1.countP isTextEvent = 0 := by
    rw [List.countP_eq_zero]
    intro e he
    simp [isTextEvent_of_progress e (hprog e he)]
  by_cases hc : ((chainRun page_count oracle).2.contents.any (fun s => s != "")) = true
  · obtain ⟨m, hm⟩ := build_merged_review_isSome (chainRun page_count oracle).2.contents
      (chainRun page_count oracle).2.accumulated (chainRun page_count oracle).2.errors
      (calculate_chunks page_count).length hobj
    have hrdc : review_document_chunked page_count oracle
        = .review_start (calculate_chunks page_count).length
            :: (chainRun page_count oracle).1
            ++ [.text m, completeEvent (calculate_chunks page_count).length
                  (chainRun page_count oracle).2.errors] := by
      simp only [review_document_chunked]
      rw [if_pos hc, hm]
    constructor
    · rw [hrdc, if_pos hc]
      simp only [List.countP_cons, List.countP_append, htext0, isTextEvent_completeEvent]
      simp [isTextEvent]
    · intro hfalse
      rw [hfalse] at hc
      cases hc
  · have hcf : ((chainRun page_count oracle).2.contents.any (fun s => s != "")) = false := by
      simpa using hc
    have hrdc : review_document_chunked page_count oracle
        = .review_start (calculate_chunks page_count).length
            :: (chainRun page_count oracle).1
            ++ [completeEvent (calculate_chunks page_count).length
                  (chainRun page_count oracle).2.errors] := by
      simp only [review_document_chunked]
      rw [if_neg (by simp [hcf])]
    constructor
    · rw [hrdc, if_neg (by simp [hcf])]
      simp only [List.countP_cons, List.countP_append, htext0, isTextEvent_completeEvent]
      simp [isTextEvent]
    · intro _
      exact ⟨hrdc, hprog⟩

/-- Witness for C10's amended theorem: a 41-page run where every chunk times
out yields no `text` event. -/
theorem text_event_iff_witness :
    (review_document_chunked 41 allTimeout).countP isTextEvent = 0 := by
  have hacc : (chainRun 41 allTimeout).2.accumulated = [] := by
    simp only [chainRun, calculate_chunks_41]
    rfl
  have h := (text_event_iff 41 allTimeout (by rw [hacc]; intro j hj; cases hj)).1
  have hc : (chainRun 41 allTimeout).2.contents.any (fun s => s != "") = false := by
    simp only [chainRun, calculate_chunks_41]
    rfl
  rw [hc] at h
  simpa using h

/-- C10 counterexample: a 41-page run whose first chunk stores non-empty raw
output (its issues hide a non-object after a prior-page hit) and whose second
chunk times out emits NO `text` event — the merge dies before yielding — even
though a chunk produced non-empty raw output, contradicting the claimed
equivalence. -/
theorem text_event_iff_counterexample :
    (review_document_chunked 41 badOracle).countP isTextEvent = 0
    ∧ (chainRun 41 badOracle).2.contents.any (fun s => s != "") = true := by
  constructor
  · simp only [review_document_chunked, chainRun, calculate_chunks_41]
    rfl
  · simp only [chainRun, calculate_chunks_41]
    rfl

/-- C4: at the 105-page failing input — chunk 1 returns a parseable fenced
block whose `issues` hold a prior-page object followed by a bare number,
chunks 2-4 time out — all four chunks are attempted and errors are recorded,
yet the stream carries NO terminal completion event at all (the merge-time
renumbering raises and the generator dies), where the claim promises exactly
one `complete` event with status `partial`. -/
theorem terminal_complete_event_lost :
    (review_document_chunked 105 badOracle).countP isCompleteEvent = 0
    ∧ (review_document_chunked 105 badOracle).countP isChunkProgress = 4
    ∧ (chainRun 105 badOracle).2.errors.length = 3 := by
  refine ⟨?_, ?_, ?_⟩
  · simp only [review_document_chunked, chainRun, calculate_chunks_105]
    rfl
  · simp only [review_document_chunked, chainRun, calculate_chunks_105]
    rfl
  · simp only [chainRun, calculate_chunks_105]
    rfl

end PubCheck
